import Mathlib

/-!
Shallow embedding of the HTTP request/response core of the repository
(src/http_request.rs, src/http_response.rs, src/gzip.rs, src/client_handler.rs).

Rust strings are modelled as Lean `String`; Rust byte-level operations on the
strings that occur here act on ASCII prefixes, where byte indices and
character indices coincide, so the character-level model below matches the
byte-level source exactly on all inputs used by the claims.

Bytes (`Vec<u8>` in the source) are modelled as `List Nat`, each entry < 256
being a byte value produced by the UTF-8 encoder below.

The gzip codec (`Gzip::parse` in src/gzip.rs) delegates to the external
`flate2` encoder; the development is parameterized over that encoder as a
function `gz : String → List Nat` standing for
`Gzip::parse(content).as_bytes().to_owned()`.
-/

/-- UTF-8 encoding of a single character, following the standard layout
(1 to 4 bytes depending on the code point). Models Rust `str::as_bytes`
character by character. -/
def utf8Char (c : Char) : List Nat :=
  let n := c.toNat
  if n < 0x80 then [n]
  else if n < 0x800 then
    [0xC0 + n / 0x40, 0x80 + n % 0x40]
  else if n < 0x10000 then
    [0xE0 + n / 0x1000, 0x80 + (n / 0x40) % 0x40, 0x80 + n % 0x40]
  else
    [0xF0 + n / 0x40000, 0x80 + (n / 0x1000) % 0x40, 0x80 + (n / 0x40) % 0x40,
      0x80 + n % 0x40]

/-- UTF-8 bytes of a string: models Rust `str::as_bytes`. -/
def utf8Bytes (s : String) : List Nat :=
  (s.data.map utf8Char).flatten

/-- Model of Rust `str::starts_with`: for valid UTF-8, byte-prefix and
character-prefix agree. -/
def rustStartsWith (s pre : String) : Bool :=
  pre.data.isPrefixOf s.data

/-- Model of Rust byte slicing `s[n..]` on a string whose first `n` bytes are
ASCII (the only use sites slice off ASCII literals). -/
def strDrop (s : String) (n : Nat) : String :=
  ⟨s.data.drop n⟩

/-- Unicode White_Space, the set Rust `char::is_whitespace` tests. -/
def rustIsWhitespace (c : Char) : Bool :=
  let n := c.toNat
  n == 0x9 || n == 0xA || n == 0xB || n == 0xC || n == 0xD || n == 0x20 ||
  n == 0x85 || n == 0xA0 || n == 0x1680 ||
  (0x2000 ≤ n && n ≤ 0x200A) ||
  n == 0x2028 || n == 0x2029 || n == 0x202F || n == 0x205F || n == 0x3000

/-- Split a character list at every separator satisfying `p`, keeping empty
pieces, as Rust `str::split` does. Always returns at least one piece. -/
def predSplit (p : Char → Bool) : List Char → List (List Char)
  | [] => [[]]
  | c :: cs =>
    let r := predSplit p cs
    if p c then [] :: r
    else (c :: r.headD []) :: r.tail

/-- Model of Rust `str::split(sep)` for a single character separator. -/
def charSplit (sep : Char) (l : List Char) : List (List Char) :=
  predSplit (fun c => c == sep) l

/-- Model of Rust `str::split_whitespace`: split on Unicode whitespace and
discard the empty pieces. -/
def splitWhitespace (s : String) : List String :=
  ((predSplit rustIsWhitespace s.data).filter (fun t => t ≠ [])).map
    (fun t => (⟨t⟩ : String))

/-- Strip one trailing carriage return, as Rust `str::lines` does for a
line that was terminated by a newline (the terminator being either a
newline alone or a carriage return followed by a newline). -/
def stripCR (l : List Char) : List Char :=
  if l.getLast? = some '\r' then l.dropLast else l

/-- Model of Rust `str::lines`: split on newline characters; every piece
except the last was terminated by a newline and has one trailing carriage
return stripped; the final piece (the text after the last newline) is kept
verbatim when non-empty and dropped when empty, so the final line ending is
optional and a final line without a newline keeps a trailing carriage
return. The empty string yields no lines. -/
def rustLines (s : String) : List String :=
  let ps := charSplit '\n' s.data
  let init := ps.dropLast.map stripCR
  let ls :=
    match ps.getLast? with
    | some [] => init
    | some t => init ++ [t]
    | none => init
  ls.map (fun l => (⟨l⟩ : String))

/-- Model of Rust `str::trim` (removal of leading and trailing whitespace). -/
def rustTrim (s : String) : String :=
  ⟨((s.data.dropWhile rustIsWhitespace).reverse.dropWhile rustIsWhitespace).reverse⟩

/-- Model of Rust `str::to_lowercase` restricted to the ASCII mapping; the
full Unicode mapping differs only on characters that cannot influence the
comparisons against the ASCII literals used in the source. -/
def rustToLower (s : String) : String :=
  ⟨s.data.map Char.toLower⟩

section RequestModel

/-! Models for src/http_request.rs -/

/-- Model of `Host` newtype from src/http_request.rs. -/
structure Host where
  val : String
deriving DecidableEq

/-- Model of `UserAgent` newtype from src/http_request.rs. -/
structure UserAgent where
  val : String
deriving DecidableEq

/-- Model of `RequestHeader` from src/http_request.rs: the recognized headers. -/
structure RequestHeader where
  host : Option Host
  userAgent : Option UserAgent
deriving DecidableEq

/-- Model of `RequestHeaderError` from src/http_request.rs. -/
inductive RequestHeaderError where
  | invalidHost
  | invalidUserAgent
deriving DecidableEq

/-- Core of `RequestHeader::from_str`, factored over the list of lines of the
buffer: find the first line starting with `"Host: "`, error if its value is
empty, then the first line starting with `"User-Agent: "`, error if its value
is empty. -/
def parseHeaderLines (ls : List String) : Except RequestHeaderError RequestHeader :=
  match (ls.find? (fun l => rustStartsWith l "Host: ")).map
      (fun l => Host.mk (strDrop l 6)) with
  | some h =>
    if h.val = "" then .error .invalidHost
    else
      match (ls.find? (fun l => rustStartsWith l "User-Agent: ")).map
          (fun l => UserAgent.mk (strDrop l 12)) with
      | some u =>
        if u.val = "" then .error .invalidUserAgent
        else .ok ⟨some h, some u⟩
      | none => .ok ⟨some h, none⟩
  | none =>
    match (ls.find? (fun l => rustStartsWith l "User-Agent: ")).map
        (fun l => UserAgent.mk (strDrop l 12)) with
    | some u =>
      if u.val = "" then .error .invalidUserAgent
      else .ok ⟨none, some u⟩
    | none => .ok ⟨none, none⟩

/-- Model of `RequestHeader::from_str` from src/http_request.rs. -/
def RequestHeader.fromStr (s : String) : Except RequestHeaderError RequestHeader :=
  parseHeaderLines (rustLines s)

/-- Model of `RequestMethod` from src/http_request.rs as provided: only the `Get`
variant exists in that file. -/
inductive RequestMethod where
  | get
deriving DecidableEq

/-- Model of `HTTPMethodError` from src/http_request.rs. -/
inductive HTTPMethodError where
  | invalidHTTPMethod (token : String)
deriving DecidableEq

/-- Model of `RequestMethod::from_str` from src/http_request.rs: lowercase the token
and accept exactly `"get"`. -/
def RequestMethod.fromStr (s : String) : Except HTTPMethodError RequestMethod :=
  let l := rustToLower s
  if l = "get" then .ok .get
  else .error (.invalidHTTPMethod l)

/-- Model of `HTTPPathError` from src/http_request.rs. -/
inductive HTTPPathError where
  | invalidHTTPPath (msg : String)
deriving DecidableEq

/-- Model of `RequestPath` from src/http_request.rs. -/
structure RequestPath where
  val : String
deriving DecidableEq

/-- Model of `RequestPath::from_str` from src/http_request.rs. The error message
string interpolation is modelled verbatim. -/
def RequestPath.fromStr (s : String) : Except HTTPPathError RequestPath :=
  if rustStartsWith s "/" then .ok ⟨s⟩
  else .error (.invalidHTTPPath ("Path " ++ s ++ " does not start with /"))

/-- Model of `HTTPVersionError` from src/http_request.rs. -/
inductive HTTPVersionError where
  | invalidHTTPVersionFormat (token : String)
  | missingVersionNumber (token : String)
deriving DecidableEq

/-- Model of `RequestVersion` from src/http_request.rs (stores the text after
`"HTTP/"`). -/
structure RequestVersion where
  val : String
deriving DecidableEq

/-- Model of `RequestVersion::from_str` from src/http_request.rs: require the
`"HTTP/"` prefix, then take the trimmed remainder, which must be non-empty. -/
def RequestVersion.fromStr (s : String) : Except HTTPVersionError RequestVersion :=
  if rustStartsWith s "HTTP/" then
    let version := strDrop (rustTrim s) 5
    if version = "" then .error (.missingVersionNumber s)
    else .ok ⟨version⟩
  else .error (.invalidHTTPVersionFormat s)

/-- Model of `HTTPRequestLineError` from src/http_request.rs. -/
inductive HTTPRequestLineError where
  | missingMethod (line : String)
  | missingPath (line : String)
  | missingVersion (line : String)
  | methodError (e : HTTPMethodError)
  | pathError (e : HTTPPathError)
  | versionError (e : HTTPVersionError)
deriving DecidableEq

/-- Model of `RequestLine` from src/http_request.rs. -/
structure RequestLine where
  method : RequestMethod
  path : RequestPath
  version : RequestVersion
deriving DecidableEq

/-- Model of `RequestLine::from_str` from src/http_request.rs: split the line on
whitespace, take method, path and version tokens in order (checking the
leading slash of the path before looking for the version token, exactly as
the source does), then parse each token. -/
def RequestLine.fromStr (s : String) : Except HTTPRequestLineError RequestLine :=
  match splitWhitespace s with
  | [] => .error (.missingMethod s)
  | [_] => .error (.missingPath s)
  | m :: p :: rest =>
    if rustStartsWith p "/" = true then
      match rest with
      | [] => .error (.missingVersion s)
      | v :: _ =>
        match RequestMethod.fromStr m with
        | .error e => .error (.methodError e)
        | .ok method =>
          match RequestPath.fromStr p with
          | .error e => .error (.pathError e)
          | .ok path =>
            match RequestVersion.fromStr v with
            | .error e => .error (.versionError e)
            | .ok version => .ok ⟨method, path, version⟩
    else .error (.missingPath s)

end RequestModel

-- Smoke checks mirroring the unit tests of src/http_request.rs.
example : RequestMethod.fromStr "GET" = .ok .get := rfl
example : RequestMethod.fromStr "POST" = .error (.invalidHTTPMethod "post") := rfl
example : RequestVersion.fromStr "HTTP/1.1" = .ok ⟨"1.1"⟩ := rfl
example : RequestVersion.fromStr "HTTP/" = .error (.missingVersionNumber "HTTP/") := rfl
example : RequestVersion.fromStr "1.1" = .error (.invalidHTTPVersionFormat "1.1") := rfl
example : RequestLine.fromStr "GET / HTTP/1.1" = .ok ⟨.get, ⟨"/"⟩, ⟨"1.1"⟩⟩ := rfl
example : RequestLine.fromStr "GET HTTP/1.1" = .error (.missingPath "GET HTTP/1.1") := rfl
example : RequestLine.fromStr "GET /" = .error (.missingVersion "GET /") := rfl
example :
    RequestHeader.fromStr "GET / HTTP/1.1\r\nHost: example.com\r\nUser-Agent: TestAgent\r\n\r\n"
      = .ok ⟨some ⟨"example.com"⟩, some ⟨"TestAgent"⟩⟩ := rfl
example :
    RequestHeader.fromStr "GET / HTTP/1.1\r\nHost: \r\nUser-Agent: TestAgent\r\n\r\n"
      = .error .invalidHost := rfl
example :
    RequestHeader.fromStr "GET / HTTP/1.1\r\nHost: example.com\r\nUser-Agent: \r\n\r\n"
      = .error .invalidUserAgent := rfl
example :
    RequestHeader.fromStr "GET / HTTP/1.1\r\nUser-Agent: TestAgent\r\n\r\n"
      = .ok ⟨none, some ⟨"TestAgent"⟩⟩ := rfl
-- Line splitting keeps a trailing carriage return on a final line that has
-- no newline terminator, exactly as Rust `str::lines` documents.
example : rustLines "bar\n\r\nbaz\r" = ["bar", "", "baz\r"] := rfl
example : rustLines "Host: \r" = ["Host: \r"] := rfl
example : rustLines "Host: a\r\n" = ["Host: a"] := rfl
example : rustLines "" = [] := rfl
example : RequestHeader.fromStr "Host: \r" = .ok ⟨some ⟨"\r"⟩, none⟩ := rfl

section ResponseModel

/-! Models for src/http_response.rs and src/gzip.rs -/

/-- Modelled from the spec: the `Encoding` type of src/http_request.rs is
absent from the provided file (only its uses in src/http_response.rs and
src/client_handler.rs remain); per the spec only the literal token `gzip` is
supported. -/
inductive Encoding where
  | gzip
deriving DecidableEq

/-- Modelled from the spec: the `Display` text of the supported encoding
token. -/
def Encoding.str : Encoding → String
  | .gzip => "gzip"

/-- Model of `ResponseStatus` from src/http_response.rs. -/
inductive ResponseStatus where
  | http200
  | http201
  | http400
  | http404
  | http500
deriving DecidableEq

/-- The `Display` implementation of `ResponseStatus`: fixed status lines,
each already terminated by CRLF. -/
def ResponseStatus.line : ResponseStatus → String
  | .http200 => "HTTP/1.1 200 OK\r\n"
  | .http201 => "HTTP/1.1 201 Created\r\n"
  | .http400 => "HTTP/1.1 400 Bad Request\r\n"
  | .http404 => "HTTP/1.1 404 Not Found\r\n"
  | .http500 => "HTTP/1.1 500 Internal Server Error\r\n"

/-- Model of `ContentType` from src/http_response.rs. -/
inductive ContentType where
  | textPlain
  | octetStream
deriving DecidableEq

/-- The `Display` implementation of `ContentType`. -/
def ContentType.str : ContentType → String
  | .textPlain => "text/plain"
  | .octetStream => "application/octet-stream"

/-- Model of `ResponseBody` from src/http_response.rs: raw bytes. -/
structure ResponseBody where
  bytes : List Nat
deriving DecidableEq

/-- Model of `ResponseBody::length`. -/
def ResponseBody.length (b : ResponseBody) : Nat :=
  b.bytes.length

/-- Model of `ContentLength` from src/http_response.rs. -/
structure ContentLength where
  val : Nat
deriving DecidableEq

/-- Model of `ContentLength::from_body`. -/
def ContentLength.fromBody (b : ResponseBody) : ContentLength :=
  ⟨b.length⟩

/-- Model of `ResponseHeader` from src/http_response.rs. -/
structure ResponseHeader where
  contentType : ContentType
  contentLength : ContentLength
  contentEncoding : Option Encoding
  location : Option String
deriving DecidableEq

/-- Model of `ResponseHeader::new`: the content length is derived from the body. -/
def ResponseHeader.new (ct : ContentType) (body : ResponseBody)
    (encoding : Option Encoding) : ResponseHeader :=
  ⟨ct, ContentLength.fromBody body, encoding, none⟩

/-- Model of `ResponseHeader::add_location`. -/
def ResponseHeader.addLocation (h : ResponseHeader) (location : String) :
    ResponseHeader :=
  ⟨h.contentType, h.contentLength, h.contentEncoding, some location⟩

/-- Model of `HTTPResponse` from src/http_response.rs. -/
structure HTTPResponse where
  status : ResponseStatus
  header : Option ResponseHeader
  body : Option ResponseBody
deriving DecidableEq

/-- Model of `HTTPResponseBuilder` from src/http_response.rs. -/
structure HTTPResponseBuilder where
  status : ResponseStatus
  header : Option ResponseHeader
  body : Option ResponseBody
deriving DecidableEq

/-- Model of `HTTPResponse::new_builder`. -/
def HTTPResponse.newBuilder (status : ResponseStatus) : HTTPResponseBuilder :=
  ⟨status, none, none⟩

/-- Model of `HTTPResponseBuilder::with_body`: compress through the gzip codec when
the encoding list has a first entry (and record that entry as the content
encoding), otherwise keep the UTF-8 bytes of the content; the header derives
the content length from the resulting body. `gz` stands for
`Gzip::parse(content).as_bytes()` of src/gzip.rs, whose deflate stream is
produced by the external `flate2` crate. -/
def HTTPResponseBuilder.withBody (b : HTTPResponseBuilder)
    (gz : String → List Nat) (content : String) (contentType : ContentType)
    (encoding : List Encoding) : HTTPResponseBuilder :=
  let body : ResponseBody :=
    match encoding.head? with
    | none => ⟨utf8Bytes content⟩
    | some _ => ⟨gz content⟩
  let header := ResponseHeader.new contentType body encoding.head?
  ⟨b.status, some header, some body⟩

/-- Model of `HTTPResponseBuilder::with_location`: the source unwraps the header
(`self.header.clone().unwrap()`), panicking when no body has been set;
the panic is modelled as `none`. -/
def HTTPResponseBuilder.withLocation (b : HTTPResponseBuilder)
    (location : String) : Option HTTPResponseBuilder :=
  b.header.map (fun h => ⟨b.status, some (h.addLocation location), b.body⟩)

/-- Model of `HTTPResponseBuilder::build`. -/
def HTTPResponseBuilder.build (b : HTTPResponseBuilder) : HTTPResponse :=
  ⟨b.status, b.header, b.body⟩

/-- Model of `HTTPResponse::as_http_bytes` from src/http_response.rs, translated
line by line: the status line bytes; then either the header fields
(Content-Encoding when set, Content-Type, Content-Length, Location when set,
each CRLF-terminated) or, for a missing header, a CRLF; then an
unconditional CRLF; then the body bytes when present. -/
def HTTPResponse.asHttpBytes (r : HTTPResponse) : List Nat :=
  utf8Bytes r.status.line
  ++ (match r.header with
      | some h =>
        (match h.contentEncoding with
         | some e => utf8Bytes ("Content-Encoding: " ++ e.str ++ "\r\n")
         | none => [])
        ++ utf8Bytes ("Content-Type: " ++ h.contentType.str ++ "\r\n")
        ++ utf8Bytes ("Content-Length: " ++ Nat.repr h.contentLength.val ++ "\r\n")
        ++ (match h.location with
            | some loc => utf8Bytes ("Location: " ++ loc ++ "\r\n")
            | none => [])
      | none => utf8Bytes "\r\n")
  ++ utf8Bytes "\r\n"
  ++ (match r.body with
      | some b => b.bytes
      | none => [])

/-- Builders reachable through the public builder operations of
src/http_response.rs: a fresh builder, a `with_body` step, or a successful
`with_location` step. -/
inductive Reached (gz : String → List Nat) : HTTPResponseBuilder → Prop
  | new (status : ResponseStatus) : Reached gz (HTTPResponse.newBuilder status)
  | withBody (b : HTTPResponseBuilder) (content : String)
      (contentType : ContentType) (encoding : List Encoding) :
      Reached gz b → Reached gz (b.withBody gz content contentType encoding)
  | withLocation (b b' : HTTPResponseBuilder) (location : String) :
      Reached gz b → b.withLocation location = some b' → Reached gz b'

end ResponseModel

-- Smoke checks mirroring the serialization expectations in the tests of
-- src/client_handler.rs (the header-bearing ones hold; the header-less one
-- is the C2 divergence).
example :
    HTTPResponse.asHttpBytes ⟨.http200, some ⟨.textPlain, ⟨4⟩, none, none⟩, some ⟨utf8Bytes "test"⟩⟩
      = utf8Bytes
        "HTTP/1.1 200 OK\r\nContent-Type: text/plain\r\nContent-Length: 4\r\n\r\ntest" := by
  decide

section HandlerModel

/-! Models for src/client_handler.rs -/

/-- The echo arm content computation of `ClientHandler::get`:
`path.split('/').nth(2).unwrap_or_default()`. -/
def echoContent (path : String) : String :=
  match (charSplit '/' path.data)[2]? with
  | some t => ⟨t⟩
  | none => ""

/-- The path segment immediately following `"/echo/"`: the text after the
prefix up to the next slash. Used to state the claims; proved equal to
`echoContent` on every path carrying the prefix. -/
def segAfterEcho (path : String) : String :=
  ⟨(path.data.drop 6).takeWhile (fun c => !(c == '/'))⟩

/-- Model of `ClientHandler::get` from src/client_handler.rs, with the network stream
removed (the function returns the response it would write). `gz` is the gzip
codec byte function and `fsRead` models `fs::read_to_string` (`none` for a
failed read). Modelled from the spec: the accept-encoding list obtained from
`request_header.accept_encoding()` is passed as the explicit argument
`accEnc`, because the provided src/http_request.rs lacks the
`Accept-Encoding` field and its parser. The match arms appear in source
order: `"/"`, `/echo/`, `/user-agent`, `/files/`, default. -/
def ClientHandler.get (gz : String → List Nat) (fsRead : String → Option String)
    (requestLine : RequestLine) (requestHeader : RequestHeader)
    (accEnc : List Encoding) (directory : Option String) : HTTPResponse :=
  let path := requestLine.path.val
  if path = "/" then
    (HTTPResponse.newBuilder .http200).build
  else if rustStartsWith path "/echo/" = true then
    (((HTTPResponse.newBuilder .http200).withBody gz (echoContent path)
      .textPlain accEnc)).build
  else if rustStartsWith path "/user-agent" = true then
    match requestHeader.userAgent with
    | none =>
      (((HTTPResponse.newBuilder .http400).withBody gz
        "Missing User-Agent header" .textPlain accEnc)).build
    | some ua =>
      (((HTTPResponse.newBuilder .http200).withBody gz ua.val
        .textPlain accEnc)).build
  else if rustStartsWith path "/files/" = true then
    let filepath := strDrop path 7
    if filepath = "" then
      (((HTTPResponse.newBuilder .http400).withBody gz
        "File asked but no filename provided" .textPlain accEnc)).build
    else
      match directory with
      | none => (HTTPResponse.newBuilder .http404).build
      | some dir =>
        match fsRead (dir ++ "/" ++ filepath) with
        | none => (HTTPResponse.newBuilder .http404).build
        | some fileContent =>
          (((HTTPResponse.newBuilder .http200).withBody gz fileContent
            .octetStream accEnc)).build
  else
    (HTTPResponse.newBuilder .http404).build

/-- The user-agent arm of `ClientHandler::get`, as a standalone function for
stating the routing claim. -/
def uaRoute (gz : String → List Nat) (userAgent : Option UserAgent)
    (accEnc : List Encoding) : HTTPResponse :=
  match userAgent with
  | none =>
    (((HTTPResponse.newBuilder .http400).withBody gz
      "Missing User-Agent header" .textPlain accEnc)).build
  | some ua =>
    (((HTTPResponse.newBuilder .http200).withBody gz ua.val
      .textPlain accEnc)).build

/-- The echo arm of `ClientHandler::get`, as a standalone function for
stating the routing claim. -/
def echoRoute (gz : String → List Nat) (path : String)
    (accEnc : List Encoding) : HTTPResponse :=
  (((HTTPResponse.newBuilder .http200).withBody gz (echoContent path)
    .textPlain accEnc)).build

/-- The files arm of `ClientHandler::get`, as a standalone function for
stating the routing claim. -/
def filesRoute (gz : String → List Nat) (fsRead : String → Option String)
    (path : String) (accEnc : List Encoding) (directory : Option String) :
    HTTPResponse :=
  let filepath := strDrop path 7
  if filepath = "" then
    (((HTTPResponse.newBuilder .http400).withBody gz
      "File asked but no filename provided" .textPlain accEnc)).build
  else
    match directory with
    | none => (HTTPResponse.newBuilder .http404).build
    | some dir =>
      match fsRead (dir ++ "/" ++ filepath) with
      | none => (HTTPResponse.newBuilder .http404).build
      | some fileContent =>
        (((HTTPResponse.newBuilder .http200).withBody gz fileContent
          .octetStream accEnc)).build

end HandlerModel

-- Smoke checks mirroring the tests of src/client_handler.rs at the level of
-- the returned response value.
example :
    ClientHandler.get (fun _ => []) (fun _ => none) ⟨.get, ⟨"/"⟩, ⟨"1.1"⟩⟩
      ⟨none, none⟩ [] none = ⟨.http200, none, none⟩ := rfl
example :
    ClientHandler.get (fun _ => []) (fun _ => none) ⟨.get, ⟨"/echo/test"⟩, ⟨"1.1"⟩⟩
      ⟨none, none⟩ [] none
      = ⟨.http200, some ⟨.textPlain, ⟨4⟩, none, none⟩, some ⟨utf8Bytes "test"⟩⟩ := by
  decide
example :
    ClientHandler.get (fun _ => []) (fun _ => none) ⟨.get, ⟨"/user-agent"⟩, ⟨"1.1"⟩⟩
      ⟨none, some ⟨"Test"⟩⟩ [] none
      = ⟨.http200, some ⟨.textPlain, ⟨4⟩, none, none⟩, some ⟨utf8Bytes "Test"⟩⟩ := by
  decide
example :
    ClientHandler.get (fun _ => []) (fun _ => none) ⟨.get, ⟨"/unknown"⟩, ⟨"1.1"⟩⟩
      ⟨none, none⟩ [] none = ⟨.http404, none, none⟩ := rfl

section Helpers

/-! Auxiliary lemmas about the string models -/

theorem isPrefixOf_eq_true_iff {l₁ l₂ : List Char} :
    l₁.isPrefixOf l₂ = true ↔ ∃ t, l₂ = l₁ ++ t := by
  induction l₁ generalizing l₂ with
  | nil => simp [List.isPrefixOf]
  | cons a as ih =>
    cases l₂ with
    | nil => simp [List.isPrefixOf]
    | cons b bs =>
      simp only [List.isPrefixOf, Bool.and_eq_true, beq_iff_eq, ih,
        List.cons_append, List.cons.injEq]
      constructor
      · rintro ⟨hab, t, ht⟩
        exact ⟨t, hab.symm, ht⟩
      · rintro ⟨t, hab, ht⟩
        exact ⟨hab.symm, t, ht⟩

theorem rustStartsWith_dest {p pre : String}
    (h : rustStartsWith p pre = true) : ∃ t, p.data = pre.data ++ t := by
  unfold rustStartsWith at h
  exact isPrefixOf_eq_true_iff.mp h

theorem predSplit_ne_nil (p : Char → Bool) (l : List Char) :
    predSplit p l ≠ [] := by
  cases l with
  | nil => simp [predSplit]
  | cons c cs =>
    simp only [predSplit]
    split <;> simp

theorem predSplit_headD (p : Char → Bool) (l : List Char) :
    (predSplit p l).headD [] = l.takeWhile (fun c => !p c) := by
  induction l with
  | nil => rfl
  | cons c cs ih =>
    cases hpc : p c with
    | true => simp [predSplit, hpc, List.takeWhile_cons]
    | false =>
      cases hr : predSplit p cs with
      | nil => exact absurd hr (predSplit_ne_nil p cs)
      | cons r0 rs =>
        rw [hr] at ih
        simp only [List.headD_cons] at ih
        simp [predSplit, hpc, hr, List.takeWhile_cons, ih]

theorem predSplit_mem (p : Char → Bool) :
    ∀ {l piece}, piece ∈ predSplit p l → ∀ c ∈ piece, p c = false := by
  intro l
  induction l with
  | nil =>
    intro piece hmem c hc
    simp [predSplit] at hmem
    subst hmem
    simp at hc
  | cons a as ih =>
    intro piece hmem c hc
    cases hpa : p a with
    | true =>
      simp only [predSplit, hpa, if_pos] at hmem
      rcases List.mem_cons.mp hmem with h | h
      · subst h; simp at hc
      · exact ih h c hc
    | false =>
      cases hr : predSplit p as with
      | nil => exact absurd hr (predSplit_ne_nil p as)
      | cons r0 rs =>
        simp only [predSplit, hpa, Bool.false_eq_true, if_false, hr,
          List.headD_cons, List.tail_cons] at hmem
        rcases List.mem_cons.mp hmem with h | h
        · subst h
          rcases List.mem_cons.mp hc with h' | h'
          · subst h'; exact hpa
          · exact ih (hr ▸ List.mem_cons_self r0 rs) c h'
        · exact ih (hr ▸ List.mem_cons_of_mem r0 h) c hc

theorem splitWhitespace_no_ws {s : String} {t : String}
    (h : t ∈ splitWhitespace s) : ∀ c ∈ t.data, rustIsWhitespace c = false := by
  unfold splitWhitespace at h
  rcases List.mem_map.mp h with ⟨l, hl, rfl⟩
  have hl' := List.mem_of_mem_filter hl
  intro c hc
  exact predSplit_mem rustIsWhitespace hl' c hc

theorem dropWhile_eq_self_of_not {p : Char → Bool} {l : List Char}
    (h : ∀ c ∈ l, p c = false) : l.dropWhile p = l := by
  cases l with
  | nil => rfl
  | cons c cs => simp [List.dropWhile_cons, h c (List.mem_cons_self c cs)]

theorem rustTrim_eq_self {s : String}
    (h : ∀ c ∈ s.data, rustIsWhitespace c = false) : rustTrim s = s := by
  unfold rustTrim
  rw [dropWhile_eq_self_of_not h]
  rw [dropWhile_eq_self_of_not (fun c hc => h c (List.mem_reverse.mp hc))]
  rw [List.reverse_reverse]

theorem find?_filter_of_imp (p q : String → Bool) (ls : List String)
    (h : ∀ a, p a = true → q a = true) :
    (ls.filter q).find? p = ls.find? p := by
  induction ls with
  | nil => rfl
  | cons a as ih =>
    cases hq : q a with
    | true =>
      cases hp : p a with
      | true => simp [List.filter_cons, hq, List.find?_cons, hp]
      | false => simp [List.filter_cons, hq, List.find?_cons, hp, ih]
    | false =>
      have hp : p a = false := by
        cases hpa : p a with
        | true =>
          have hqa := h a hpa
          rw [hq] at hqa
          exact Bool.noConfusion hqa
        | false => rfl
      simp [List.filter_cons, hq, List.find?_cons, hp, ih]

theorem find?_eq_head_filter (p : String → Bool) (ls : List String) :
    ls.find? p = (ls.filter p).head? := by
  induction ls with
  | nil => rfl
  | cons a as ih =>
    cases hp : p a with
    | true => simp [List.find?_cons, List.filter_cons, hp]
    | false =>
      rw [List.find?_cons, List.filter_cons, hp, ih]
      simp

theorem perm_find?_of_countP_le_one (p : String → Bool) {ls ls' : List String}
    (hperm : ls.Perm ls') (hcount : ls.countP p ≤ 1) :
    ls.find? p = ls'.find? p := by
  rw [find?_eq_head_filter, find?_eq_head_filter]
  have hf : (ls.filter p).Perm (ls'.filter p) := hperm.filter p
  have hlen : (ls.filter p).length ≤ 1 := by
    rw [← List.countP_eq_length_filter]
    exact hcount
  cases hfl : ls.filter p with
  | nil =>
    rw [hfl] at hf
    rw [(hf.symm).eq_nil]
  | cons a as =>
    rw [hfl] at hf hlen
    have has : as = [] := by
      rw [List.length_cons] at hlen
      have h0 : as.length = 0 := by omega
      exact List.length_eq_zero.mp h0
    subst has
    rw [(List.singleton_perm.mp hf)]

end Helpers

section BranchHelpers

/-! Branch resolution facts for the handler match -/

theorem ne_root_of_echo {p : String} {t : List Char}
    (ht : p.data = ('/' :: 'e' :: 'c' :: 'h' :: 'o' :: '/' :: t)) : p ≠ "/" := by
  intro h
  rw [h] at ht
  rw [show (("/" : String)).data = ['/'] from rfl] at ht
  simp at ht

theorem ne_root_of_ua {p : String} {t : List Char}
    (ht : p.data = ('/' :: 'u' :: 's' :: 'e' :: 'r' :: '-' :: 'a' :: 'g' :: 'e'
      :: 'n' :: 't' :: t)) : p ≠ "/" := by
  intro h
  rw [h] at ht
  rw [show (("/" : String)).data = ['/'] from rfl] at ht
  simp at ht

theorem ne_root_of_files {p : String} {t : List Char}
    (ht : p.data = ('/' :: 'f' :: 'i' :: 'l' :: 'e' :: 's' :: '/' :: t)) :
    p ≠ "/" := by
  intro h
  rw [h] at ht
  rw [show (("/" : String)).data = ['/'] from rfl] at ht
  simp at ht

theorem echo_false_of_ua {p : String} {t : List Char}
    (ht : p.data = ('/' :: 'u' :: 's' :: 'e' :: 'r' :: '-' :: 'a' :: 'g' :: 'e'
      :: 'n' :: 't' :: t)) : rustStartsWith p "/echo/" = false := by
  unfold rustStartsWith
  rw [ht]
  rfl

theorem echo_false_of_files {p : String} {t : List Char}
    (ht : p.data = ('/' :: 'f' :: 'i' :: 'l' :: 'e' :: 's' :: '/' :: t)) :
    rustStartsWith p "/echo/" = false := by
  unfold rustStartsWith
  rw [ht]
  rfl

theorem ua_false_of_files {p : String} {t : List Char}
    (ht : p.data = ('/' :: 'f' :: 'i' :: 'l' :: 'e' :: 's' :: '/' :: t)) :
    rustStartsWith p "/user-agent" = false := by
  unfold rustStartsWith
  rw [ht]
  rfl

theorem echoContent_eq_seg {p : String} {t : List Char}
    (ht : p.data = ('/' :: 'e' :: 'c' :: 'h' :: 'o' :: '/' :: t)) :
    echoContent p = segAfterEcho p := by
  unfold echoContent segAfterEcho charSplit
  rw [ht]
  have hps : predSplit (fun c => c == '/') ('/' :: 'e' :: 'c' :: 'h' :: 'o' :: '/' :: t)
      = [] :: ['e', 'c', 'h', 'o'] :: predSplit (fun c => c == '/') t := rfl
  rw [hps]
  cases hpr : predSplit (fun c => c == '/') t with
  | nil => exact absurd hpr (predSplit_ne_nil _ t)
  | cons r0 rs =>
    have hhd := predSplit_headD (fun c => c == '/') t
    rw [hpr] at hhd
    simp only [List.headD_cons] at hhd
    simp [hhd, List.drop]

/-- Structural invariant of reachable builders: header and body are present
together, and whenever a body is present the header's content length is
derived from it. -/
theorem reached_invariant {gz : String → List Nat} {b : HTTPResponseBuilder}
    (h : Reached gz b) :
    (b.header = none ↔ b.body = none) ∧
    ∀ bod, b.body = some bod →
      ∃ hd, b.header = some hd ∧ hd.contentLength = ContentLength.fromBody bod := by
  induction h with
  | new status =>
    constructor
    · simp [HTTPResponse.newBuilder]
    · intro bod hbod
      simp [HTTPResponse.newBuilder] at hbod
  | withBody b content ct enc hb ih =>
    constructor
    · simp [HTTPResponseBuilder.withBody]
    · intro bod hbod
      simp only [HTTPResponseBuilder.withBody, Option.some.injEq] at hbod
      refine ⟨_, rfl, ?_⟩
      rw [← hbod]
      rfl
  | withLocation b b' loc hb heq ih =>
    unfold HTTPResponseBuilder.withLocation at heq
    rw [Option.map_eq_some'] at heq
    obtain ⟨h0, hh0, hb'⟩ := heq
    subst hb'
    constructor
    · simp only []
      constructor
      · intro hcontra
        exact Option.noConfusion hcontra
      · intro hbn
        have := ih.1.mpr hbn
        rw [hh0] at this
        exact absurd this (by simp)
    · intro bod hbod
      obtain ⟨hd, hhd, hcl⟩ := ih.2 bod hbod
      rw [hh0] at hhd
      have : hd = h0 := by
        cases hhd
        rfl
      subst this
      exact ⟨hd.addLocation loc, rfl, hcl⟩

/-- C1: the claim states that method parsing accepts exactly the tokens
matching "get" or "post" case-insensitively, returning GET or POST. The
provided `RequestMethod::from_str` (src/http_request.rs lines 110-131) has
no Post variant at all and rejects "post"/"POST" with the invalid-method
error, even though its own caller src/client_handler.rs matches on
`RequestMethod::Post`; this theorem evaluates the code at the failing
inputs and confirms the case-insensitive handling of "get". -/
theorem c1_method_parsing_rejects_post :
    RequestMethod.fromStr "POST" = .error (.invalidHTTPMethod "post")
    ∧ RequestMethod.fromStr "post" = .error (.invalidHTTPMethod "post")
    ∧ RequestMethod.fromStr "GeT" = .ok .get
    ∧ RequestMethod.fromStr "length" = .error (.invalidHTTPMethod "length") :=
  ⟨rfl, rfl, rfl, rfl⟩

/-- C2: the claim states that a response with no header serializes to the
status line followed by exactly one blank CRLF line. The code
(`as_http_bytes`, src/http_response.rs lines 19-48) appends a CRLF in the
no-header match arm and then appends the unconditional CRLF, producing two
blank lines; this contradicts the claim and the tests of
src/client_handler.rs, which expect `"HTTP/1.1 200 OK\r\n\r\n"`. The third
and fourth conjuncts confirm the header-bearing field order
(Content-Encoding when set, Content-Type, Content-Length, Location when
set, blank line, body). -/
theorem c2_headerless_serialization_divergence :
    HTTPResponse.asHttpBytes ⟨.http200, none, none⟩
      = utf8Bytes "HTTP/1.1 200 OK\r\n\r\n\r\n"
    ∧ HTTPResponse.asHttpBytes ⟨.http200, none, none⟩
      ≠ utf8Bytes "HTTP/1.1 200 OK\r\n\r\n"
    ∧ HTTPResponse.asHttpBytes
        ⟨.http200, some ⟨.textPlain, ⟨4⟩, none, none⟩, some ⟨utf8Bytes "test"⟩⟩
      = utf8Bytes
        "HTTP/1.1 200 OK\r\nContent-Type: text/plain\r\nContent-Length: 4\r\n\r\ntest"
    ∧ HTTPResponse.asHttpBytes
        ⟨.http201, some ⟨.octetStream, ⟨3⟩, some .gzip, some "/d/f"⟩, some ⟨[1, 2, 3]⟩⟩
      = utf8Bytes
        "HTTP/1.1 201 Created\r\nContent-Encoding: gzip\r\nContent-Type: application/octet-stream\r\nContent-Length: 3\r\nLocation: /d/f\r\n\r\n"
        ++ [1, 2, 3] := by
  refine ⟨by decide, by decide, by decide, by decide⟩

/-- C3: the with-body operation compresses through the gzip codec and sets
the Content-Encoding header exactly when the first entry of the encoding
list is the supported gzip token; for every other encoding list (which can
only be the empty list, the gzip token being the sole encoding) the body is
the UTF-8 bytes of the content and no Content-Encoding is set. -/
theorem c3_with_body_gzip_selection :
    ∀ (gz : String → List Nat) (b : HTTPResponseBuilder) (content : String)
      (ct : ContentType) (enc : List Encoding),
      (enc.head? = some .gzip →
        (b.withBody gz content ct enc).body = some ⟨gz content⟩
        ∧ ∃ hd, (b.withBody gz content ct enc).header = some hd
            ∧ hd.contentEncoding = some .gzip)
      ∧ (enc.head? ≠ some .gzip →
        enc = []
        ∧ (b.withBody gz content ct enc).body = some ⟨utf8Bytes content⟩
        ∧ ∃ hd, (b.withBody gz content ct enc).header = some hd
            ∧ hd.contentEncoding = none) := by
  intro gz b content ct enc
  cases enc with
  | nil =>
    constructor
    · intro h
      simp at h
    · intro _
      exact ⟨rfl, rfl, ⟨_, rfl, rfl⟩⟩
  | cons e es =>
    cases e
    constructor
    · intro _
      exact ⟨rfl, ⟨_, rfl, rfl⟩⟩
    · intro h
      exact absurd rfl h

/-- Witness for C3 at concrete inputs. -/
theorem c3_witness :
    (((HTTPResponse.newBuilder .http200).withBody (fun _ => [9, 9]) "abc"
      .textPlain [Encoding.gzip]).body = some ⟨[9, 9]⟩)
    ∧ ((HTTPResponse.newBuilder .http200).withBody (fun _ => [9, 9]) "abc"
      .textPlain []).body = some ⟨utf8Bytes "abc"⟩ := by
  constructor
  · exact ((c3_with_body_gzip_selection (fun _ => [9, 9])
      (HTTPResponse.newBuilder .http200) "abc" .textPlain [Encoding.gzip]).1 rfl).1
  · exact ((c3_with_body_gzip_selection (fun _ => [9, 9])
      (HTTPResponse.newBuilder .http200) "abc" .textPlain []).2 (by simp)).2.1

/-- C4: every response built from a reachable builder that has a body has a
header whose content length is the byte length of the stored (final,
possibly compressed) body, and with-location steps preserve this. -/
theorem c4_content_length_matches_body :
    ∀ (gz : String → List Nat) (b : HTTPResponseBuilder), Reached gz b →
      ∀ bod, (b.build).body = some bod →
        ∃ hd, (b.build).header = some hd
          ∧ hd.contentLength.val = bod.bytes.length := by
  intro gz b hb bod hbod
  obtain ⟨hd, hhd, hcl⟩ := (reached_invariant hb).2 bod hbod
  refine ⟨hd, hhd, ?_⟩
  rw [hcl]
  rfl

/-- Witness for C4: a builder with a gzip body and a location call. -/
theorem c4_witness :
    ∃ hd,
      ((HTTPResponseBuilder.mk .http201
          (some (ResponseHeader.mk .textPlain ⟨2⟩ (some .gzip) (some "/tmp/f")))
          (some ⟨[9, 9]⟩)).build).header = some hd
      ∧ hd.contentLength.val = 2 := by
  have hreach : Reached (fun _ => [9, 9])
      (HTTPResponseBuilder.mk .http201
        (some (ResponseHeader.mk .textPlain ⟨2⟩ (some .gzip) (some "/tmp/f")))
        (some ⟨[9, 9]⟩)) := by
    refine Reached.withLocation _ _ "/tmp/f"
      (Reached.withBody (HTTPResponse.newBuilder .http201) "hi" .textPlain
        [Encoding.gzip] (Reached.new .http201)) ?_
    rfl
  exact c4_content_length_matches_body (fun _ => [9, 9]) _ hreach ⟨[9, 9]⟩ rfl

/-- C5: calling with-location on a reachable builder with no prior body
(hence no header) hits the `unwrap` panic, modelled as `none`; after a
with-body call it succeeds and only adds the Location field, leaving
status, body and the other header fields unchanged. -/
theorem c5_with_location_discipline :
    ∀ (gz : String → List Nat) (b : HTTPResponseBuilder) (loc : String),
      Reached gz b →
      (b.body = none → b.withLocation loc = none)
      ∧ (∀ bod, b.body = some bod →
          ∃ hd, b.header = some hd
            ∧ b.withLocation loc
              = some ⟨b.status, some (hd.addLocation loc), some bod⟩) := by
  intro gz b loc hb
  constructor
  · intro hbn
    have hh : b.header = none := (reached_invariant hb).1.mpr hbn
    unfold HTTPResponseBuilder.withLocation
    rw [hh]
    rfl
  · intro bod hbod
    obtain ⟨hd, hhd, _⟩ := (reached_invariant hb).2 bod hbod
    refine ⟨hd, hhd, ?_⟩
    unfold HTTPResponseBuilder.withLocation
    rw [hhd]
    simp only [Option.map_some']
    rw [hbod]

/-- Witness for C5: the fresh builder panics on with-location; the builder
with a body accepts it. -/
theorem c5_witness :
    ((HTTPResponse.newBuilder .http200).withLocation "/x" = none)
    ∧ ∃ hd, ((HTTPResponse.newBuilder .http201).withBody (fun _ => [5]) "ok"
        .textPlain []).header = some hd
      ∧ ((HTTPResponse.newBuilder .http201).withBody (fun _ => [5]) "ok"
        .textPlain []).withLocation "/x"
        = some ⟨.http201, some (hd.addLocation "/x"), some ⟨utf8Bytes "ok"⟩⟩ := by
  constructor
  · exact (c5_with_location_discipline (fun _ => [5]) _ "/x"
      (Reached.new .http200)).1 rfl
  · exact (c5_with_location_discipline (fun _ => [5]) _ "/x"
      (Reached.withBody (HTTPResponse.newBuilder .http201) "ok" .textPlain []
        (Reached.new .http201))).2 ⟨utf8Bytes "ok"⟩ rfl

/-- Decidable equality for `Except`, used to evaluate parser results on
concrete inputs. -/
instance exceptDecEq {ε α : Type} [DecidableEq ε] [DecidableEq α] :
    DecidableEq (Except ε α) := fun x y =>
  match x, y with
  | .ok a, .ok b =>
    if h : a = b then .isTrue (by rw [h])
    else .isFalse (fun hc => h (Except.ok.inj hc))
  | .error a, .error b =>
    if h : a = b then .isTrue (by rw [h])
    else .isFalse (fun hc => h (Except.error.inj hc))
  | .ok _, .error _ => .isFalse (fun hc => Except.noConfusion hc)
  | .error _, .ok _ => .isFalse (fun hc => Except.noConfusion hc)

/-- C6 counterexample: the request line "GET HTTP/1.1" has exactly two
whitespace-delimited tokens, yet parsing reports MissingPath, not the
MissingVersion required by the claim for every two-token line (the source
checks the leading slash of the second token before looking for a version
token, and the repository test
`test_request_line_from_str_with_missing_path` expects exactly this). -/
theorem c6_counterexample :
    (splitWhitespace "GET HTTP/1.1").length = 2
    ∧ RequestLine.fromStr "GET HTTP/1.1" = .error (.missingPath "GET HTTP/1.1")
    ∧ RequestLine.fromStr "GET HTTP/1.1"
      ≠ .error (.missingVersion "GET HTTP/1.1") := by
  refine ⟨rfl, rfl, by decide⟩

/-- C6 (amended): no tokens yields MissingMethod; one token yields
MissingPath; two tokens yield MissingVersion when the second token starts
with a slash and MissingPath otherwise; at least three tokens with a
slash-leading path token, a version token of "HTTP/" followed by a
non-empty suffix, and a valid method token parse successfully. -/
theorem c6_request_line_tokens :
    ∀ s : String,
      (splitWhitespace s = [] →
        RequestLine.fromStr s = .error (.missingMethod s))
      ∧ (∀ m, splitWhitespace s = [m] →
        RequestLine.fromStr s = .error (.missingPath s))
      ∧ (∀ m p, splitWhitespace s = [m, p] → rustStartsWith p "/" = true →
        RequestLine.fromStr s = .error (.missingVersion s))
      ∧ (∀ m p, splitWhitespace s = [m, p] → rustStartsWith p "/" = false →
        RequestLine.fromStr s = .error (.missingPath s))
      ∧ (∀ m p v rest meth, splitWhitespace s = m :: p :: v :: rest →
        rustStartsWith p "/" = true → rustStartsWith v "HTTP/" = true →
        strDrop v 5 ≠ "" → RequestMethod.fromStr m = .ok meth →
        RequestLine.fromStr s = .ok ⟨meth, ⟨p⟩, ⟨strDrop v 5⟩⟩) := by
  intro s
  refine ⟨?_, ?_, ?_, ?_, ?_⟩
  · intro h
    simp only [RequestLine.fromStr, h]
  · intro m h
    simp only [RequestLine.fromStr, h]
  · intro m p h hsw
    simp only [RequestLine.fromStr, h]
    rw [if_pos hsw]
  · intro m p h hsw
    simp only [RequestLine.fromStr, h]
    rw [if_neg (by rw [hsw]; exact Bool.noConfusion)]
  · intro m p v rest meth h hp hv hver hmeth
    have hmem : v ∈ splitWhitespace s := by
      rw [h]
      simp
    have htrim : rustTrim v = v :=
      rustTrim_eq_self (splitWhitespace_no_ws hmem)
    simp only [RequestLine.fromStr, h]
    rw [if_pos hp, hmeth]
    simp only [RequestPath.fromStr, hp, if_pos]
    simp only [RequestVersion.fromStr, hv, if_pos, htrim]
    rw [if_neg hver]

/-- Witness for C6 at a complete request line. -/
theorem c6_witness :
    RequestLine.fromStr "GET /idx HTTP/1.1" = .ok ⟨.get, ⟨"/idx"⟩, ⟨"1.1"⟩⟩ := by
  have h := (c6_request_line_tokens "GET /idx HTTP/1.1").2.2.2.2 "GET" "/idx"
    "HTTP/1.1" [] .get rfl rfl rfl (by decide) rfl
  exact h

/-- Resolution of the echo match arm of the handler. -/
theorem get_echo_arm (gz : String → List Nat) (fsRead : String → Option String)
    (m : RequestMethod) (v p : String) (rh : RequestHeader)
    (accEnc : List Encoding) (dir : Option String)
    (hne : p ≠ "/") (hsw : rustStartsWith p "/echo/" = true) :
    ClientHandler.get gz fsRead ⟨m, ⟨p⟩, ⟨v⟩⟩ rh accEnc dir
      = (((HTTPResponse.newBuilder .http200).withBody gz (echoContent p)
        .textPlain accEnc)).build := by
  simp only [ClientHandler.get]
  rw [if_neg hne, if_pos hsw]

/-- Resolution of the user-agent match arm of the handler. -/
theorem get_ua_arm (gz : String → List Nat) (fsRead : String → Option String)
    (m : RequestMethod) (v p : String) (host? : Option Host)
    (ua? : Option UserAgent) (accEnc : List Encoding) (dir : Option String)
    (hne : p ≠ "/") (hechoF : rustStartsWith p "/echo/" = false)
    (hsw : rustStartsWith p "/user-agent" = true) :
    ClientHandler.get gz fsRead ⟨m, ⟨p⟩, ⟨v⟩⟩ ⟨host?, ua?⟩ accEnc dir
      = uaRoute gz ua? accEnc := by
  simp only [ClientHandler.get]
  rw [if_neg hne, if_neg (ne_true_of_eq_false hechoF), if_pos hsw]
  unfold uaRoute
  cases ua? <;> rfl

/-- Resolution of the files match arm of the handler. -/
theorem get_files_arm (gz : String → List Nat) (fsRead : String → Option String)
    (m : RequestMethod) (v p : String) (rh : RequestHeader)
    (accEnc : List Encoding) (dir : Option String)
    (hne : p ≠ "/") (hechoF : rustStartsWith p "/echo/" = false)
    (huaF : rustStartsWith p "/user-agent" = false)
    (hsw : rustStartsWith p "/files/" = true) :
    ClientHandler.get gz fsRead ⟨m, ⟨p⟩, ⟨v⟩⟩ rh accEnc dir
      = filesRoute gz fsRead p accEnc dir := by
  simp only [ClientHandler.get]
  rw [if_neg hne, if_neg (ne_true_of_eq_false hechoF),
    if_neg (ne_true_of_eq_false huaF), if_pos hsw]
  rfl

/-- Resolution of the default (404) match arm of the handler. -/
theorem get_default_arm (gz : String → List Nat) (fsRead : String → Option String)
    (m : RequestMethod) (v p : String) (rh : RequestHeader)
    (accEnc : List Encoding) (dir : Option String)
    (hne : p ≠ "/") (hechoF : rustStartsWith p "/echo/" = false)
    (huaF : rustStartsWith p "/user-agent" = false)
    (hfilesF : rustStartsWith p "/files/" = false) :
    ClientHandler.get gz fsRead ⟨m, ⟨p⟩, ⟨v⟩⟩ rh accEnc dir
      = (HTTPResponse.newBuilder .http404).build := by
  simp only [ClientHandler.get]
  rw [if_neg hne, if_neg (ne_true_of_eq_false hechoF),
    if_neg (ne_true_of_eq_false huaF), if_neg (ne_true_of_eq_false hfilesF)]

/-- C7: for every GET request whose path starts with "/echo/", the handler
answers 200 with content-type text/plain, the body being the path segment
immediately following "/echo/" (empty when there is none), gzip-compressed
exactly when the negotiated encoding list starts with gzip (in which case
Content-Encoding carries it). -/
theorem c7_echo_route :
    ∀ (gz : String → List Nat) (fsRead : String → Option String)
      (m : RequestMethod) (v p : String) (rh : RequestHeader)
      (accEnc : List Encoding) (dir : Option String),
      rustStartsWith p "/echo/" = true →
      (ClientHandler.get gz fsRead ⟨m, ⟨p⟩, ⟨v⟩⟩ rh accEnc dir).status = .http200
      ∧ (∃ hd, (ClientHandler.get gz fsRead ⟨m, ⟨p⟩, ⟨v⟩⟩ rh accEnc dir).header
          = some hd ∧ hd.contentType = .textPlain
          ∧ hd.contentEncoding = accEnc.head?)
      ∧ (ClientHandler.get gz fsRead ⟨m, ⟨p⟩, ⟨v⟩⟩ rh accEnc dir).body
        = some (match accEnc.head? with
            | none => ResponseBody.mk (utf8Bytes (segAfterEcho p))
            | some _ => ResponseBody.mk (gz (segAfterEcho p))) := by
  intro gz fsRead m v p rh accEnc dir hsw
  obtain ⟨t, ht⟩ := rustStartsWith_dest hsw
  have ht' : p.data = ('/' :: 'e' :: 'c' :: 'h' :: 'o' :: '/' :: t) := ht
  rw [get_echo_arm gz fsRead m v p rh accEnc dir (ne_root_of_echo ht') hsw,
    echoContent_eq_seg ht']
  refine ⟨rfl, ⟨_, rfl, rfl, rfl⟩, ?_⟩
  cases accEnc <;> rfl

/-- Witness for C7 at the path "/echo/abc" with no negotiated encoding. -/
theorem c7_witness :
    (ClientHandler.get (fun _ => [3]) (fun _ => none)
      ⟨.get, ⟨"/echo/abc"⟩, ⟨"1.1"⟩⟩ ⟨none, none⟩ [] none).body
      = some ⟨utf8Bytes (segAfterEcho "/echo/abc")⟩ := by
  exact (c7_echo_route (fun _ => [3]) (fun _ => none) .get "1.1" "/echo/abc"
    ⟨none, none⟩ [] none rfl).2.2

/-- C8: for every GET request whose path starts with "/user-agent", the
handler answers 200 with the User-Agent value as the with-body content when
the header is present, and 400 with the content "Missing User-Agent header"
when it is absent; in both cases the content is the literal body bytes when
no encoding is negotiated (and passes through the shared gzip negotiation
otherwise). -/
theorem c8_user_agent_route :
    ∀ (gz : String → List Nat) (fsRead : String → Option String)
      (m : RequestMethod) (v p : String) (host? : Option Host)
      (ua? : Option UserAgent) (accEnc : List Encoding) (dir : Option String),
      rustStartsWith p "/user-agent" = true →
      (∀ ua, ua? = some ua →
        ClientHandler.get gz fsRead ⟨m, ⟨p⟩, ⟨v⟩⟩ ⟨host?, ua?⟩ accEnc dir
          = (((HTTPResponse.newBuilder .http200).withBody gz ua.val
            .textPlain accEnc)).build
        ∧ (accEnc = [] →
          (ClientHandler.get gz fsRead ⟨m, ⟨p⟩, ⟨v⟩⟩ ⟨host?, ua?⟩ accEnc dir).body
            = some ⟨utf8Bytes ua.val⟩))
      ∧ (ua? = none →
        ClientHandler.get gz fsRead ⟨m, ⟨p⟩, ⟨v⟩⟩ ⟨host?, ua?⟩ accEnc dir
          = (((HTTPResponse.newBuilder .http400).withBody gz
            "Missing User-Agent header" .textPlain accEnc)).build
        ∧ (accEnc = [] →
          (ClientHandler.get gz fsRead ⟨m, ⟨p⟩, ⟨v⟩⟩ ⟨host?, ua?⟩ accEnc dir).body
            = some ⟨utf8Bytes "Missing User-Agent header"⟩)) := by
  intro gz fsRead m v p host? ua? accEnc dir hsw
  obtain ⟨t, ht⟩ := rustStartsWith_dest hsw
  have ht' : p.data = ('/' :: 'u' :: 's' :: 'e' :: 'r' :: '-' :: 'a' :: 'g'
      :: 'e' :: 'n' :: 't' :: t) := ht
  have harm := get_ua_arm gz fsRead m v p host? ua? accEnc dir
    (ne_root_of_ua ht') (echo_false_of_ua ht') hsw
  constructor
  · intro ua hua
    subst hua
    rw [harm]
    constructor
    · rfl
    · intro henc
      subst henc
      rfl
  · intro hua
    subst hua
    rw [harm]
    constructor
    · rfl
    · intro henc
      subst henc
      rfl

/-- Witness for C8 with User-Agent "Foo" present and absent. -/
theorem c8_witness :
    ClientHandler.get (fun _ => [3]) (fun _ => none)
      ⟨.get, ⟨"/user-agent"⟩, ⟨"1.1"⟩⟩ ⟨none, some ⟨"Foo"⟩⟩ [] none
      = (((HTTPResponse.newBuilder .http200).withBody (fun _ => [3]) "Foo"
        .textPlain [])).build
    ∧ (ClientHandler.get (fun _ => [3]) (fun _ => none)
      ⟨.get, ⟨"/user-agent"⟩, ⟨"1.1"⟩⟩ ⟨none, none⟩ [] none).body
      = some ⟨utf8Bytes "Missing User-Agent header"⟩ := by
  constructor
  · exact ((c8_user_agent_route (fun _ => [3]) (fun _ => none) .get "1.1"
      "/user-agent" none (some ⟨"Foo"⟩) [] none rfl).1 ⟨"Foo"⟩ rfl).1
  · exact ((c8_user_agent_route (fun _ => [3]) (fun _ => none) .get "1.1"
      "/user-agent" none none [] none rfl).2 rfl).2 rfl

/-- C10: GET route matching is prefix-based after the exact match on "/":
paths starting with "/user-agent" go to the user-agent arm, paths starting
with "/echo/" to the echo arm, paths starting with "/files/" to the files
arm (the three prefixes are mutually exclusive, so the source order of the
arms is immaterial), and every other path produces the bodiless 404
response. -/
theorem c10_get_routing :
    ∀ (gz : String → List Nat) (fsRead : String → Option String)
      (m : RequestMethod) (v p : String) (host? : Option Host)
      (ua? : Option UserAgent) (accEnc : List Encoding) (dir : Option String),
      (p = "/" →
        ClientHandler.get gz fsRead ⟨m, ⟨p⟩, ⟨v⟩⟩ ⟨host?, ua?⟩ accEnc dir
          = (HTTPResponse.newBuilder .http200).build)
      ∧ (rustStartsWith p "/user-agent" = true →
        ClientHandler.get gz fsRead ⟨m, ⟨p⟩, ⟨v⟩⟩ ⟨host?, ua?⟩ accEnc dir
          = uaRoute gz ua? accEnc)
      ∧ (rustStartsWith p "/echo/" = true →
        ClientHandler.get gz fsRead ⟨m, ⟨p⟩, ⟨v⟩⟩ ⟨host?, ua?⟩ accEnc dir
          = echoRoute gz p accEnc)
      ∧ (rustStartsWith p "/files/" = true →
        ClientHandler.get gz fsRead ⟨m, ⟨p⟩, ⟨v⟩⟩ ⟨host?, ua?⟩ accEnc dir
          = filesRoute gz fsRead p accEnc dir)
      ∧ (p ≠ "/" → rustStartsWith p "/user-agent" = false →
        rustStartsWith p "/echo/" = false → rustStartsWith p "/files/" = false →
        ClientHandler.get gz fsRead ⟨m, ⟨p⟩, ⟨v⟩⟩ ⟨host?, ua?⟩ accEnc dir
          = (HTTPResponse.newBuilder .http404).build
        ∧ (ClientHandler.get gz fsRead ⟨m, ⟨p⟩, ⟨v⟩⟩ ⟨host?, ua?⟩ accEnc dir).body
          = none) := by
  intro gz fsRead m v p host? ua? accEnc dir
  refine ⟨?_, ?_, ?_, ?_, ?_⟩
  · intro h
    subst h
    rfl
  · intro hsw
    obtain ⟨t, ht⟩ := rustStartsWith_dest hsw
    have ht' : p.data = ('/' :: 'u' :: 's' :: 'e' :: 'r' :: '-' :: 'a' :: 'g'
        :: 'e' :: 'n' :: 't' :: t) := ht
    exact get_ua_arm gz fsRead m v p host? ua? accEnc dir
      (ne_root_of_ua ht') (echo_false_of_ua ht') hsw
  · intro hsw
    obtain ⟨t, ht⟩ := rustStartsWith_dest hsw
    have ht' : p.data = ('/' :: 'e' :: 'c' :: 'h' :: 'o' :: '/' :: t) := ht
    rw [get_echo_arm gz fsRead m v p ⟨host?, ua?⟩ accEnc dir
      (ne_root_of_echo ht') hsw]
    rfl
  · intro hsw
    obtain ⟨t, ht⟩ := rustStartsWith_dest hsw
    have ht' : p.data = ('/' :: 'f' :: 'i' :: 'l' :: 'e' :: 's' :: '/' :: t) := ht
    exact get_files_arm gz fsRead m v p ⟨host?, ua?⟩ accEnc dir
      (ne_root_of_files ht') (echo_false_of_files ht') (ua_false_of_files ht') hsw
  · intro hne huaF hechoF hfilesF
    have harm := get_default_arm gz fsRead m v p ⟨host?, ua?⟩ accEnc dir
      hne hechoF huaF hfilesF
    rw [harm]
    exact ⟨rfl, rfl⟩

/-- Witness for C10: the path "/user-agentX" is handled by the user-agent
arm. -/
theorem c10_witness :
    ClientHandler.get (fun _ => [3]) (fun _ => none)
      ⟨.get, ⟨"/user-agentX"⟩, ⟨"1.1"⟩⟩ ⟨none, none⟩ [] none
      = uaRoute (fun _ => [3]) none [] := by
  exact (c10_get_routing (fun _ => [3]) (fun _ => none) .get "1.1"
    "/user-agentX" none none [] none).2.1 rfl

/-- Header parsing depends on the line list only through the first line
found for each recognized prefix. -/
theorem parseHeaderLines_congr {ls ls' : List String}
    (hH : ls.find? (fun l => rustStartsWith l "Host: ")
      = ls'.find? (fun l => rustStartsWith l "Host: "))
    (hU : ls.find? (fun l => rustStartsWith l "User-Agent: ")
      = ls'.find? (fun l => rustStartsWith l "User-Agent: ")) :
    parseHeaderLines ls = parseHeaderLines ls' := by
  unfold parseHeaderLines
  rw [hH, hU]

/-- C9 counterexample: two buffers whose lines are permutations of one
another parse to different headers, because duplicate "Host: " lines make
the result depend on which one comes first; this refutes the unconditional
order-independence stated by the claim. -/
theorem c9_counterexample :
    List.Perm (rustLines "Host: a\nHost: b") (rustLines "Host: b\nHost: a")
    ∧ RequestHeader.fromStr "Host: a\nHost: b"
      ≠ RequestHeader.fromStr "Host: b\nHost: a" := by
  constructor
  · rw [show rustLines "Host: a\nHost: b" = ["Host: a", "Host: b"] from rfl,
      show rustLines "Host: b\nHost: a" = ["Host: b", "Host: a"] from rfl]
    exact List.Perm.swap "Host: b" "Host: a" []
  · decide

/-- C9 (amended): header parsing ignores every line that does not start
with a recognized prefix; its result is independent of the order of the
lines provided each recognized prefix occurs on at most one line; and it
fails exactly when the first line carrying a recognized prefix ("Host: "
or "User-Agent: ") has empty text after that prefix. -/
theorem c9_header_parsing :
    (∀ ls : List String,
      parseHeaderLines ls = parseHeaderLines (ls.filter (fun l =>
        rustStartsWith l "Host: " || rustStartsWith l "User-Agent: ")))
    ∧ (∀ ls ls' : List String, List.Perm ls ls' →
      ls.countP (fun l => rustStartsWith l "Host: ") ≤ 1 →
      ls.countP (fun l => rustStartsWith l "User-Agent: ") ≤ 1 →
      parseHeaderLines ls = parseHeaderLines ls')
    ∧ (∀ s : String,
      (∃ e, RequestHeader.fromStr s = .error e) ↔
      ((∃ l, (rustLines s).find? (fun l => rustStartsWith l "Host: ") = some l
          ∧ strDrop l 6 = "")
       ∨ (∃ l, (rustLines s).find? (fun l => rustStartsWith l "User-Agent: ")
          = some l ∧ strDrop l 12 = ""))) := by
  refine ⟨?_, ?_, ?_⟩
  · intro ls
    refine parseHeaderLines_congr ?_ ?_
    · rw [find?_filter_of_imp _ _ ls (fun a ha => by rw [ha]; rfl)]
    · rw [find?_filter_of_imp _ _ ls (fun a ha => by rw [ha]; simp)]
  · intro ls ls' hperm hH hU
    exact parseHeaderLines_congr
      (perm_find?_of_countP_le_one _ hperm hH)
      (perm_find?_of_countP_le_one _ hperm hU)
  · intro s
    unfold RequestHeader.fromStr
    unfold parseHeaderLines
    cases hH : (rustLines s).find? (fun l => rustStartsWith l "Host: ") with
    | some lh =>
      simp only [Option.map_some']
      by_cases hv : strDrop lh 6 = ""
      · rw [if_pos hv]
        exact iff_of_true ⟨.invalidHost, rfl⟩ (Or.inl ⟨lh, rfl, hv⟩)
      · rw [if_neg hv]
        cases hU : (rustLines s).find? (fun l => rustStartsWith l "User-Agent: ") with
        | some lu =>
          simp only [Option.map_some']
          by_cases hv2 : strDrop lu 12 = ""
          · rw [if_pos hv2]
            exact iff_of_true ⟨.invalidUserAgent, rfl⟩ (Or.inr ⟨lu, rfl, hv2⟩)
          · rw [if_neg hv2]
            refine iff_of_false ?_ ?_
            · rintro ⟨e, he⟩
              exact Except.noConfusion he
            · rintro (⟨l, hl, hl6⟩ | ⟨l, hl, hl12⟩)
              · cases Option.some.inj hl
                exact hv hl6
              · cases Option.some.inj hl
                exact hv2 hl12
        | none =>
          simp only [Option.map_none']
          refine iff_of_false ?_ ?_
          · rintro ⟨e, he⟩
            exact Except.noConfusion he
          · rintro (⟨l, hl, hl6⟩ | ⟨l, hl, hl12⟩)
            · cases Option.some.inj hl
              exact hv hl6
            · exact Option.noConfusion hl
    | none =>
      simp only [Option.map_none']
      cases hU : (rustLines s).find? (fun l => rustStartsWith l "User-Agent: ") with
      | some lu =>
        simp only [Option.map_some']
        by_cases hv2 : strDrop lu 12 = ""
        · rw [if_pos hv2]
          exact iff_of_true ⟨.invalidUserAgent, rfl⟩ (Or.inr ⟨lu, rfl, hv2⟩)
        · rw [if_neg hv2]
          refine iff_of_false ?_ ?_
          · rintro ⟨e, he⟩
            exact Except.noConfusion he
          · rintro (⟨l, hl, hl6⟩ | ⟨l, hl, hl12⟩)
            · exact Option.noConfusion hl
            · cases Option.some.inj hl
              exact hv2 hl12
      | none =>
        simp only [Option.map_none']
        refine iff_of_false ?_ ?_
        · rintro ⟨e, he⟩
          exact Except.noConfusion he
        · rintro (⟨l, hl, hl6⟩ | ⟨l, hl, hl12⟩)
          · exact Option.noConfusion hl
          · exact Option.noConfusion hl

/-- Witness for C9 at concrete line lists with at most one occurrence of
each recognized prefix. -/
theorem c9_witness :
    parseHeaderLines ["junk", "Host: h", "User-Agent: u"]
      = parseHeaderLines ["User-Agent: u", "Host: h", "junk"] := by
  refine c9_header_parsing.2.1 _ _ ?_ (by decide) (by decide)
  exact (List.reverse_perm ["junk", "Host: h", "User-Agent: u"]).symm
